/-
Verification of the catalog-and-order core of the storefront
(src/database.py together with its near-duplicate src/app.py).

The relational store is embedded shallowly: each table is a list of rows,
SQL statements become list operations, and each Python function that talks
to the database becomes a Lean function from the store state (plus the
explicit values the Python code obtains from its environment, such as
timestamps and random salts) to a result paired with the new state.
Machine `REAL` columns only ever hold exact decimal values in the claims
under study, so prices are rationals; `INTEGER` columns are `Int`
(SQLite integers are signed and may go negative).
-/
import Mathlib

namespace Store

/-- A row of the `products` table (src/database.py:38-48). -/
structure Product where
  id : Nat
  name : String
  price : ℚ
  image : String
  category : Option String
  description : String
  stock : Int
  created_at : Nat
deriving DecidableEq, Repr

/-- One line of the in-memory cart passed to `place_order`
(dict with keys "id", "name", "price", "quantity" in src/app.py). -/
structure CartItem where
  id : Nat
  name : String
  price : ℚ
  quantity : Int
deriving DecidableEq, Repr

/-- A row of the `orders` table (src/database.py:49-56). -/
structure Order where
  id : Nat
  user_id : Nat
  created_at : Nat
  total : ℚ
deriving DecidableEq, Repr

/-- A row of the `order_items` table (src/database.py:57-66). -/
structure OrderItem where
  order_id : Nat
  product_id : Nat
  quantity : Int
  price_each : ℚ
deriving DecidableEq, Repr

/-- A row of the `users` table (src/database.py:29-37). -/
structure User where
  id : Nat
  username : String
  password_hash : String
  password_salt : String
  is_admin : Bool
  created_at : Nat
deriving DecidableEq, Repr

/-- The slice of database state that `place_order` can read or write.
`nextOrderId` models the AUTOINCREMENT counter behind `c.lastrowid`.
The `users` table is carried so that we can state what `place_order`
does (and does not) check about `user_id`; the connection in
`get_conn` (src/database.py:17-24) never issues `PRAGMA foreign_keys`,
so the declared foreign keys are not enforced, and accordingly no
transition of this model consults them. -/
structure DB where
  users : List User
  products : List Product
  orders : List Order
  orderItems : List OrderItem
  nextOrderId : Nat
deriving Repr

/-- `SELECT ... FROM products WHERE id=?` — first row with the given id. -/
def findProduct : List Product → Nat → Option Product
  | [], _ => none
  | p :: ps, pid => if p.id = pid then some p else findProduct ps pid

/-- The per-line stock check of src/database.py:338-342: a line fails when
its product is missing or its stock is below the requested quantity. -/
def lineFails (ps : List Product) (it : CartItem) : Prop :=
  match findProduct ps it.id with
  | none => True
  | some p => p.stock < it.quantity

instance (ps : List Product) (it : CartItem) : Decidable (lineFails ps it) :=
  match hfp : findProduct ps it.id with
  | none => isTrue (by unfold lineFails; rw [hfp]; trivial)
  | some p =>
      if h : p.stock < it.quantity then
        isTrue (by unfold lineFails; rw [hfp]; exact h)
      else
        isFalse (by unfold lineFails; rw [hfp]; exact h)

/-- The check loop of src/database.py:338-342: scan the cart in order and
return the name of the first failing line, if any. -/
def checkStock (ps : List Product) : List CartItem → Option String
  | [] => none
  | it :: rest => if lineFails ps it then some it.name else checkStock ps rest

/-- `total = sum(it["price"] * it["quantity"] for it in cart_items)`
(src/database.py:343) — prices come from the cart snapshot, not from
the products table. -/
def cartTotal (cart : List CartItem) : ℚ :=
  (cart.map (fun it => it.price * (it.quantity : ℚ))).sum

/-- `UPDATE products SET stock = stock - ? WHERE id=?` (src/database.py:351). -/
def decStock (ps : List Product) (pid : Nat) (q : Int) : List Product :=
  ps.map (fun p => if p.id = pid then { p with stock := p.stock - q } else p)

/-- Net effect of the write loop of src/database.py:346-351 on the products
table: one stock decrement per cart line, in cart order. -/
def decStocks (ps : List Product) : List CartItem → List Product
  | [] => ps
  | it :: rest => decStocks (decStock ps it.id it.quantity) rest

/-- The write loop of src/database.py:346-351: for each cart line, insert an
order item and decrement the product's stock. -/
def insertItems (db : DB) (oid : Nat) : List CartItem → DB
  | [] => db
  | it :: rest =>
      insertItems
        { db with
          orderItems := db.orderItems ++ [⟨oid, it.id, it.quantity, it.price⟩],
          products := decStock db.products it.id it.quantity }
        oid rest

/-- Outcome of `place_order` as surfaced to the caller. -/
inductive OrderResult where
  | emptyCart
  | insufficientStock (name : String)
  | placed (orderId : Nat)
deriving DecidableEq, Repr

/-- `place_order(user_id, cart_items)` (src/database.py:332-356; the variant
in src/app.py:318-339 is line-for-line the same logic). The happy path runs
inside one transaction: check every line, compute the total from the cart
snapshot, insert the order row, then insert items and decrement stock.
Either failure return happens before any write, so the state is returned
unchanged there. -/
def place_order (db : DB) (user_id : Nat) (cart : List CartItem) (now : Nat) :
    OrderResult × DB :=
  if cart.isEmpty then (.emptyCart, db)
  else
    match checkStock db.products cart with
    | some nm => (.insufficientStock nm, db)
    | none =>
        let total := cartTotal cart
        let oid := db.nextOrderId
        let db1 : DB :=
          { db with
            orders := db.orders ++ [⟨oid, user_id, now, total⟩],
            nextOrderId := oid + 1 }
        (.placed oid, insertItems db1 oid cart)

/-- Run a single-threaded sequence of `place_order` calls
(each call: user id, cart, timestamp). -/
def runOrders (db : DB) : List (Nat × List CartItem × Nat) → DB
  | [] => db
  | (u, cart, t) :: rest => runOrders (place_order db u cart t).2 rest

/-- Stock of the product with the given id (0 when absent). -/
def stockOf (ps : List Product) (pid : Nat) : Int :=
  match findProduct ps pid with
  | some p => p.stock
  | none => 0

/-- Total quantity a cart requests for one product id (summed over lines). -/
def cartQty : List CartItem → Nat → Int
  | [], _ => 0
  | it :: rest, pid => (if it.id = pid then it.quantity else 0) + cartQty rest pid

/-- Total quantity sold for one product over a list of order items. -/
def soldQty : List OrderItem → Nat → Int
  | [], _ => 0
  | oi :: rest, pid => (if oi.product_id = pid then oi.quantity else 0) + soldQty rest pid

/-- The product ids of a list of products. -/
def idsOf (ps : List Product) : List Nat := ps.map Product.id

/-- The product ids referenced by a cart. -/
def cartIds (cart : List CartItem) : List Nat := cart.map CartItem.id

/-- Rows appended to `order_items` by one successful call, in cart order
(src/database.py:347-350). -/
def itemsOf (oid : Nat) (cart : List CartItem) : List OrderItem :=
  cart.map (fun it => ⟨oid, it.id, it.quantity, it.price⟩)

/-! ### Reviews (src/database.py:301-318) -/

/-- A row of the `reviews` table (src/database.py:67-78); the pair
(user_id, product_id) carries a UNIQUE constraint. -/
structure Review where
  user_id : Nat
  product_id : Nat
  rating : Int
  comment : String
  created_at : Nat
deriving DecidableEq, Repr

/-- Whether a review row belongs to the (user, product) pair. -/
def reviewPair (uid pid : Nat) (r : Review) : Bool :=
  r.user_id == uid && r.product_id == pid

/-- The UPDATE of src/database.py:313-316 applied to one row: rows of the
(user, product) pair get the new rating, comment and timestamp. -/
def overwriteReview (uid pid : Nat) (rating : Int) (comment : String)
    (now : Nat) (r : Review) : Review :=
  if reviewPair uid pid r then
    { r with rating := rating, comment := comment, created_at := now }
  else r

/-- `add_review(user_id, product_id, rating, comment)` (src/database.py:301-318).
Rejects ratings outside 1..5; then tries the INSERT, whose UNIQUE(user_id,
product_id) constraint raises IntegrityError exactly when a row for the pair
exists, in which case the UPDATE overwrites rating, comment and created_at
of the rows of that pair. -/
def add_review (rs : List Review) (uid pid : Nat) (rating : Int)
    (comment : String) (now : Nat) : Bool × List Review :=
  if rating < 1 ∨ 5 < rating then (false, rs)
  else if rs.any (reviewPair uid pid) then
    (true, rs.map (overwriteReview uid pid rating comment now))
  else (true, rs ++ [⟨uid, pid, rating, comment, now⟩])

/-- Number of review rows stored for a (user, product) pair. -/
def reviewCount (rs : List Review) (uid pid : Nat) : Nat :=
  (rs.filter (reviewPair uid pid)).length

/-! ### Wishlist (src/database.py:271-280) -/

/-- A row of the `wishlist` table (src/database.py:79-88); the pair
(user_id, product_id) carries a UNIQUE constraint. -/
structure WishlistEntry where
  user_id : Nat
  product_id : Nat
  created_at : Nat
deriving DecidableEq, Repr

/-- Whether a wishlist row belongs to the (user, product) pair. -/
def wishPair (uid pid : Nat) (w : WishlistEntry) : Bool :=
  w.user_id == uid && w.product_id == pid

/-- `add_wishlist(user_id, product_id)` (src/database.py:271-280):
`INSERT OR IGNORE` — the insert is skipped exactly when a row for the
(user, product) pair already exists; either way the call reports success. -/
def add_wishlist (ws : List WishlistEntry) (uid pid : Nat) (now : Nat) :
    Bool × List WishlistEntry :=
  if ws.any (wishPair uid pid) then (true, ws)
  else (true, ws ++ [⟨uid, pid, now⟩])

/-- Number of wishlist rows stored for a (user, product) pair. -/
def wishCount (ws : List WishlistEntry) (uid pid : Nat) : Nat :=
  (ws.filter (wishPair uid pid)).length

/-! ### Users (src/database.py:11-15 and 132-184)

`_hash_password` computes `sha256(salt + password)` with a salt drawn from
`os.urandom` when not supplied. The digest is embedded as an abstract
function `hash : String → String` passed to each operation, and the random
salt as an explicit argument; collision-freeness of the digest becomes an
injectivity hypothesis where a theorem needs it. -/

/-- Python's `str.strip()` (restricted to ASCII whitespace, the only kind
the claims exercise): drop leading and trailing whitespace characters. -/
def strip (s : String) : String :=
  ⟨((s.data.dropWhile Char.isWhitespace).reverse.dropWhile Char.isWhitespace).reverse⟩

/-- The users table together with its AUTOINCREMENT counter. -/
structure UserDB where
  users : List User
  nextUserId : Nat
deriving Repr

/-- `register_user(username, password)` (src/database.py:132-153). The
length guards read the raw arguments, but the INSERT stores
`username.strip()`; the UNIQUE constraint on username raises
IntegrityError ("Username already exists.") exactly when a user with the
stripped username is already present. -/
def register_user (hash : String → String) (db : UserDB)
    (username password salt : String) (now : Nat) : Bool × String × UserDB :=
  if username = "" ∨ password = "" then (false, "Username and password required.", db)
  else if username.length < 3 then (false, "Username must be >= 3 chars.", db)
  else if password.length < 6 then (false, "Password must be >= 6 chars.", db)
  else if db.users.any (fun u => u.username == strip username) then
    (false, "Username already exists.", db)
  else
    (true, "Registration successful.",
      { users := db.users ++
          [⟨db.nextUserId, strip username, hash (salt ++ password), salt, false, now⟩],
        nextUserId := db.nextUserId + 1 })

/-- `authenticate(username, password)` (src/database.py:155-167): look the
user up by stripped username, recompute the salted digest and compare. -/
def authenticate (hash : String → String) (db : UserDB)
    (username password : String) : Bool × Option User :=
  match db.users.find? (fun u => u.username == strip username) with
  | none => (false, none)
  | some u =>
      if hash (u.password_salt ++ password) = u.password_hash then (true, some u)
      else (false, none)

/-- `change_password(user_id, old_password, new_password)`
(src/database.py:169-184): length guard on the new password, digest check
of the old one against the stored hash, then the UPDATE replaces hash and
salt of every row with that id (salt rotation). -/
def change_password (hash : String → String) (db : UserDB) (user_id : Nat)
    (old_password new_password new_salt : String) : Bool × String × UserDB :=
  if new_password.length < 6 then (false, "New password must be >= 6 chars.", db)
  else
    match db.users.find? (fun u => u.id == user_id) with
    | none => (false, "User not found.", db)
    | some u =>
        if hash (u.password_salt ++ old_password) = u.password_hash then
          (true, "Password updated.",
            { db with users := db.users.map (fun v =>
                if v.id = user_id then
                  { v with password_hash := hash (new_salt ++ new_password),
                           password_salt := new_salt }
                else v) })
        else (false, "Old password incorrect.", db)

/-! ### Catalog listing (src/database.py:187-225) -/

/-- Filter and paging arguments of `list_products`; `page` and `page_size`
are the keyword arguments with the same defaults as the Python signature. -/
structure ProductFilter where
  search : String := ""
  category : String := ""
  price_min : Option ℚ := none
  price_max : Option ℚ := none
  sort_by : String := "newest"
  page : Nat := 1
  page_size : Nat := 6
deriving Repr

/-- The WHERE clause built in src/database.py:189-201: case-insensitive
substring match on the name, exact category match unless "All", and the
optional price bounds. -/
def matchesFilter (f : ProductFilter) (p : Product) : Bool :=
  (f.search == "" ||
    decide (List.IsInfix f.search.toLower.toList p.name.toLower.toList)) &&
  (f.category == "" || f.category == "All" ||
    ((p.category.getD "") == f.category)) &&
  (match f.price_min with | none => true | some mn => decide (mn ≤ p.price)) &&
  (match f.price_max with | none => true | some mx => decide (p.price ≤ mx))

/-- `COALESCE(AVG(rating),0)` over the reviews of one product
(the subquery of src/database.py:207 and 217). -/
def avgRating (rs : List Review) (pid : Nat) : ℚ :=
  let mine := rs.filter (fun r => r.product_id == pid)
  if mine.length = 0 then 0
  else ((mine.map (fun r => (r.rating : ℚ))).sum) / (mine.length : ℚ)

/-- The ORDER BY clause chosen in src/database.py:202-209. -/
def sortProducts (rs : List Review) (sort_by : String) (ps : List Product) :
    List Product :=
  if sort_by = "price_asc" then ps.mergeSort (fun a b => decide (a.price ≤ b.price))
  else if sort_by = "price_desc" then ps.mergeSort (fun a b => decide (b.price ≤ a.price))
  else if sort_by = "rating_desc" then
    ps.mergeSort (fun a b => decide (avgRating rs b.id ≤ avgRating rs a.id))
  else ps.mergeSort (fun a b => decide (b.created_at ≤ a.created_at))

/-- `list_products` (src/database.py:187-225): `total` is the COUNT of the
rows matching the WHERE clause alone; the returned page applies the ORDER BY
then `LIMIT page_size OFFSET (page-1)*page_size`. -/
def list_products (ps : List Product) (rs : List Review) (f : ProductFilter) :
    List Product × Nat :=
  let matching := ps.filter (matchesFilter f)
  let total := matching.length
  let sorted := sortProducts rs f.sort_by matching
  (((sorted.drop ((f.page - 1) * f.page_size)).take f.page_size), total)

/-! ### Concrete stores and carts used as test inputs -/

/-- Product A of the spec's §8 scenario: unit price 150, stock 3. -/
def prodA : Product := ⟨1, "A", 150, "", none, "", 3, 0⟩

/-- A store holding only product A, next order id 1, no users. -/
def dbA : DB := ⟨[], [prodA], [], [], 1⟩

/-- Product B of the spec's §8 scenario: unit price 200, stock 3. -/
def prodB : Product := ⟨2, "B", 200, "", none, "", 3, 0⟩

/-- A store holding only product B. -/
def dbB : DB := ⟨[], [prodB], [], [], 1⟩

/-- Product A with a *live* price (999) different from the price a buyer's
cart snapshot carries (150): distinguishes snapshot totals from fresh
lookups. -/
def prodLive : Product := ⟨1, "A", 999, "", none, "", 3, 0⟩

/-- A store holding only `prodLive`. -/
def dbLive : DB := ⟨[], [prodLive], [], [], 1⟩

/-- Product A with zero stock. -/
def prodOut : Product := ⟨1, "A", 150, "", none, "", 0, 0⟩

/-- A store holding only `prodOut`. -/
def dbOut : DB := ⟨[], [prodOut], [], [], 1⟩

/-- The §8 scenario cart: product A, unit price 150, quantity 2. -/
def cartA : List CartItem := [⟨1, "A", 150, 2⟩]

/-- The §8 failing cart: product B, unit price 200, quantity 5. -/
def cartB : List CartItem := [⟨2, "B", 200, 5⟩]

/-- A cart listing product A twice, quantity 2 each. -/
def cartDup : List CartItem := [⟨1, "A", 150, 2⟩, ⟨1, "A", 150, 2⟩]

/-- A cart requesting quantity 0 of product A. -/
def cartZero : List CartItem := [⟨1, "A", 150, 0⟩]

/-- A concrete injective stand-in for the SHA-256 digest, used to evaluate
the credential operations on concrete inputs. -/
def hashConcrete : String → String := fun s => "#" ++ s

/-- An empty users table with the AUTOINCREMENT counter at 1. -/
def udbEmpty : UserDB := ⟨[], 1⟩

/-- Seven catalog products with distinct ids and creation times. -/
def catalog7 : List Product :=
  (List.range 7).map (fun i => ⟨i + 1, "P", 100, "", none, "", 5, i⟩)

/-- The unrestricted filter asking for the third page of three items. -/
def filter7 : ProductFilter := ⟨"", "", none, none, "newest", 3, 3⟩

/-- The users table produced by registering alice/secret1 (salt "s1") on an
empty store. -/
def udbAlice : UserDB :=
  (register_user hashConcrete udbEmpty "alice" "secret1" "s1" 0).2.2

/-! ### Lemmas about the order transaction -/

theorem findProduct_id (ps : List Product) (pid : Nat) (p : Product)
    (h : findProduct ps pid = some p) : p.id = pid := by
  induction ps with
  | nil => simp [findProduct] at h
  | cons q qs ih =>
      by_cases hq : q.id = pid
      · simp [findProduct, hq] at h
        rw [← h]; exact hq
      · simp [findProduct, hq] at h
        exact ih h

theorem findProduct_mem (ps : List Product) (pid : Nat) (p : Product)
    (h : findProduct ps pid = some p) : p ∈ ps := by
  induction ps with
  | nil => simp [findProduct] at h
  | cons q qs ih =>
      by_cases hq : q.id = pid
      · simp [findProduct, hq] at h
        simp [← h]
      · simp [findProduct, hq] at h
        exact List.mem_cons_of_mem _ (ih h)

theorem findProduct_eq_some_of_mem (ps : List Product) (p : Product)
    (hnd : (idsOf ps).Nodup) (hp : p ∈ ps) : findProduct ps p.id = some p := by
  induction ps with
  | nil => simp at hp
  | cons q qs ih =>
      simp only [idsOf, List.map_cons, List.nodup_cons] at hnd
      rcases List.mem_cons.mp hp with hpq | hps
      · subst hpq; simp [findProduct]
      · have hne : q.id ≠ p.id := by
          intro he
          exact hnd.1 (he ▸ List.mem_map_of_mem Product.id hps)
        simp only [findProduct, hne, if_false]
        exact ih hnd.2 hps

theorem findProduct_isSome_iff (ps : List Product) (pid : Nat) :
    (findProduct ps pid).isSome = true ↔ pid ∈ idsOf ps := by
  induction ps with
  | nil => simp [findProduct, idsOf]
  | cons q qs ih =>
      by_cases hq : q.id = pid
      · simp [findProduct, hq, idsOf]
      · simp only [findProduct, hq, if_false, idsOf, List.map_cons, List.mem_cons]
        rw [ih]
        simp [idsOf, Ne.symm hq]

theorem stockOf_eq_of_findProduct (ps : List Product) (pid : Nat) (p : Product)
    (h : findProduct ps pid = some p) : stockOf ps pid = p.stock := by
  unfold stockOf; rw [h]

theorem stockOf_eq_zero_of_findProduct (ps : List Product) (pid : Nat)
    (h : findProduct ps pid = none) : stockOf ps pid = 0 := by
  unfold stockOf; rw [h]

theorem decStock_preserves_id (p : Product) (pid : Nat) (q : Int) :
    (if p.id = pid then { p with stock := p.stock - q } else p).id = p.id := by
  by_cases h : p.id = pid <;> simp [h]

theorem findProduct_decStock (ps : List Product) (pid : Nat) (q : Int) (pid' : Nat) :
    findProduct (decStock ps pid q) pid' =
      (findProduct ps pid').map
        (fun p => if p.id = pid then { p with stock := p.stock - q } else p) := by
  induction ps with
  | nil => rfl
  | cons r rs ih =>
      simp only [decStock, List.map_cons, findProduct, decStock_preserves_id r pid q]
      by_cases hr : r.id = pid'
      · rw [if_pos hr, if_pos hr]
        rfl
      · rw [if_neg hr, if_neg hr]
        exact ih

theorem idsOf_decStock (ps : List Product) (pid : Nat) (q : Int) :
    idsOf (decStock ps pid q) = idsOf ps := by
  induction ps with
  | nil => rfl
  | cons r rs ih =>
      by_cases hrp : r.id = pid
      · simp only [decStock, idsOf, List.map_cons] at *
        rw [if_pos hrp]
        exact congrArg _ ih
      · simp only [decStock, idsOf, List.map_cons] at *
        rw [if_neg hrp]
        exact congrArg _ ih

theorem stockOf_decStock (ps : List Product) (pid : Nat) (q : Int) (pid' : Nat)
    (hpres : pid = pid' → pid' ∈ idsOf ps) :
    stockOf (decStock ps pid q) pid' =
      stockOf ps pid' - (if pid = pid' then q else 0) := by
  unfold stockOf
  rw [findProduct_decStock]
  rcases hfp : findProduct ps pid' with _ | p
  · by_cases hpp : pid = pid'
    · have := hpres hpp
      rw [← findProduct_isSome_iff] at this
      rw [hfp] at this; simp at this
    · simp [hpp]
  · have hid := findProduct_id ps pid' p hfp
    by_cases hpp : pid = pid'
    · simp [Option.map_some, hid, hpp]
    · have : p.id ≠ pid := by rw [hid]; exact fun h => hpp h.symm
      simp [Option.map_some, this, hpp]

theorem idsOf_decStocks (ps : List Product) (cart : List CartItem) :
    idsOf (decStocks ps cart) = idsOf ps := by
  induction cart generalizing ps with
  | nil => rfl
  | cons it rest ih => rw [decStocks, ih, idsOf_decStock]

theorem stockOf_decStocks (ps : List Product) (cart : List CartItem)
    (hpres : ∀ it ∈ cart, it.id ∈ idsOf ps) (pid : Nat) :
    stockOf (decStocks ps cart) pid = stockOf ps pid - cartQty cart pid := by
  induction cart generalizing ps with
  | nil => simp [decStocks, cartQty]
  | cons it rest ih =>
      rw [decStocks, cartQty]
      have hpres' : ∀ jt ∈ rest, jt.id ∈ idsOf (decStock ps it.id it.quantity) := by
        intro jt hjt
        rw [idsOf_decStock]
        exact hpres jt (List.mem_cons_of_mem _ hjt)
      rw [ih _ hpres', stockOf_decStock]
      · omega
      · intro he
        rw [← he]
        exact hpres it (List.mem_cons_self it rest)

theorem insertItems_users (db : DB) (oid : Nat) (cart : List CartItem) :
    (insertItems db oid cart).users = db.users := by
  induction cart generalizing db with
  | nil => rfl
  | cons it rest ih => rw [insertItems, ih]

theorem insertItems_orders (db : DB) (oid : Nat) (cart : List CartItem) :
    (insertItems db oid cart).orders = db.orders := by
  induction cart generalizing db with
  | nil => rfl
  | cons it rest ih => rw [insertItems, ih]

theorem insertItems_nextOrderId (db : DB) (oid : Nat) (cart : List CartItem) :
    (insertItems db oid cart).nextOrderId = db.nextOrderId := by
  induction cart generalizing db with
  | nil => rfl
  | cons it rest ih => rw [insertItems, ih]

theorem insertItems_orderItems (db : DB) (oid : Nat) (cart : List CartItem) :
    (insertItems db oid cart).orderItems = db.orderItems ++ itemsOf oid cart := by
  induction cart generalizing db with
  | nil => simp [insertItems, itemsOf]
  | cons it rest ih =>
      rw [insertItems, ih]
      simp [itemsOf]

theorem insertItems_products (db : DB) (oid : Nat) (cart : List CartItem) :
    (insertItems db oid cart).products = decStocks db.products cart := by
  induction cart generalizing db with
  | nil => rfl
  | cons it rest ih =>
      rw [insertItems, ih, decStocks]

theorem checkStock_eq_none_iff (ps : List Product) (cart : List CartItem) :
    checkStock ps cart = none ↔ ∀ it ∈ cart, ¬ lineFails ps it := by
  induction cart with
  | nil => simp [checkStock]
  | cons it rest ih =>
      by_cases hf : lineFails ps it
      · simp [checkStock, hf]
      · simp [checkStock, hf, ih]

theorem checkStock_eq_some_of_fails (ps : List Product) (cart : List CartItem)
    (h : ∃ it ∈ cart, lineFails ps it) :
    ∃ it ∈ cart, lineFails ps it ∧ checkStock ps cart = some it.name := by
  induction cart with
  | nil => simp at h
  | cons jt rest ih =>
      by_cases hj : lineFails ps jt
      · exact ⟨jt, List.mem_cons_self jt rest, hj, by simp [checkStock, hj]⟩
      · have h' : ∃ it ∈ rest, lineFails ps it := by
          rcases h with ⟨it, hmem, hit⟩
          rcases List.mem_cons.mp hmem with he | hm
          · exact absurd (he ▸ hit) hj
          · exact ⟨it, hm, hit⟩
        rcases ih h' with ⟨it, hmem, hit, hck⟩
        exact ⟨it, List.mem_cons_of_mem _ hmem,
          hit, by rw [checkStock, if_neg hj]; exact hck⟩

/-- A line that passes the stock check references an existing product. -/
theorem mem_idsOf_of_not_lineFails (ps : List Product) (it : CartItem)
    (h : ¬ lineFails ps it) : it.id ∈ idsOf ps := by
  rw [← findProduct_isSome_iff]
  unfold lineFails at h
  rcases hfp : findProduct ps it.id with _ | p
  · rw [hfp] at h; exact absurd trivial h
  · rfl

theorem place_order_of_empty (db : DB) (u : Nat) (t : Nat) :
    place_order db u [] t = (.emptyCart, db) := rfl

theorem place_order_of_checkStock_some (db : DB) (u : Nat) (cart : List CartItem)
    (t : Nat) (nm : String) (hne : cart ≠ []) (h : checkStock db.products cart = some nm) :
    place_order db u cart t = (.insufficientStock nm, db) := by
  unfold place_order
  rw [if_neg (by simpa using hne), h]

theorem place_order_of_checkStock_none (db : DB) (u : Nat) (cart : List CartItem)
    (t : Nat) (hne : cart ≠ []) (h : checkStock db.products cart = none) :
    place_order db u cart t =
      (.placed db.nextOrderId,
        insertItems
          { db with
            orders := db.orders ++ [⟨db.nextOrderId, u, t, cartTotal cart⟩],
            nextOrderId := db.nextOrderId + 1 }
          db.nextOrderId cart) := by
  unfold place_order
  rw [if_neg (by simpa using hne), h]

/-- `cartQty` vanishes for a product the cart never references. -/
theorem cartQty_eq_zero_of_not_mem (cart : List CartItem) (pid : Nat)
    (h : pid ∉ cartIds cart) : cartQty cart pid = 0 := by
  induction cart with
  | nil => rfl
  | cons it rest ih =>
      simp only [cartIds, List.map_cons, List.mem_cons, not_or] at h
      rw [cartQty, if_neg (fun he => h.1 he.symm), ih (by simpa [cartIds] using h.2)]
      omega

/-- In a cart whose lines reference pairwise distinct products, `cartQty` is
either 0 or the quantity of the unique line for that product. -/
theorem cartQty_of_nodup (cart : List CartItem) (pid : Nat)
    (hnd : (cartIds cart).Nodup) :
    cartQty cart pid = 0 ∨
      ∃ it ∈ cart, it.id = pid ∧ cartQty cart pid = it.quantity := by
  induction cart with
  | nil => exact Or.inl rfl
  | cons jt rest ih =>
      simp only [cartIds, List.map_cons, List.nodup_cons] at hnd
      by_cases hj : jt.id = pid
      · refine Or.inr ⟨jt, List.mem_cons_self jt rest, hj, ?_⟩
        rw [cartQty, if_pos hj,
          cartQty_eq_zero_of_not_mem rest pid (by rw [← hj]; exact hnd.1)]
        omega
      · rcases ih hnd.2 with h0 | ⟨it, hmem, hit, hq⟩
        · exact Or.inl (by rw [cartQty, if_neg hj, h0]; omega)
        · exact Or.inr ⟨it, List.mem_cons_of_mem _ hmem, hit,
            by rw [cartQty, if_neg hj, hq]; omega⟩

/-- Core of the stock invariant: after the decrements of one cart that passed
the stock check and references each product at most once, every stock that
was non-negative stays non-negative. -/
theorem decStocks_stock_nonneg (ps : List Product) (cart : List CartItem)
    (hndp : (idsOf ps).Nodup) (hndc : (cartIds cart).Nodup)
    (hnn : ∀ p ∈ ps, 0 ≤ p.stock)
    (hok : ∀ it ∈ cart, ¬ lineFails ps it) :
    ∀ p ∈ decStocks ps cart, 0 ≤ p.stock := by
  intro p hp
  have hpres : ∀ it ∈ cart, it.id ∈ idsOf ps :=
    fun it hit => mem_idsOf_of_not_lineFails ps it (hok it hit)
  have hnd' : (idsOf (decStocks ps cart)).Nodup := by
    rw [idsOf_decStocks]; exact hndp
  have hfp : findProduct (decStocks ps cart) p.id = some p :=
    findProduct_eq_some_of_mem _ p hnd' hp
  have hstock : stockOf (decStocks ps cart) p.id = p.stock := by
    unfold stockOf; rw [hfp]
  rw [stockOf_decStocks ps cart hpres p.id] at hstock
  rcases cartQty_of_nodup cart p.id hndc with h0 | ⟨it, hmem, hit, hq⟩
  · -- the cart does not touch this product
    rw [h0] at hstock
    rcases hfq : findProduct ps p.id with _ | q
    · rw [stockOf_eq_zero_of_findProduct ps p.id hfq] at hstock; omega
    · have := hnn q (findProduct_mem ps p.id q hfq)
      rw [stockOf_eq_of_findProduct ps p.id q hfq] at hstock; omega
  · -- the unique cart line for this product passed the stock check
    have hline := hok it hmem
    unfold lineFails at hline
    rcases hfq : findProduct ps it.id with _ | q
    · rw [hfq] at hline; exact absurd trivial hline
    · rw [hfq] at hline
      push_neg at hline
      have hsq : stockOf ps p.id = q.stock := by
        rw [← hit]; exact stockOf_eq_of_findProduct ps it.id q hfq
      omega

theorem soldQty_append (xs ys : List OrderItem) (pid : Nat) :
    soldQty (xs ++ ys) pid = soldQty xs pid + soldQty ys pid := by
  induction xs with
  | nil => simp [soldQty]
  | cons x xs ih =>
      rw [List.cons_append, soldQty, soldQty, ih]
      omega

theorem soldQty_itemsOf (oid : Nat) (cart : List CartItem) (pid : Nat) :
    soldQty (itemsOf oid cart) pid = cartQty cart pid := by
  induction cart with
  | nil => rfl
  | cons it rest ih =>
      simp only [itemsOf, List.map_cons, soldQty, cartQty] at *
      rw [ih]

/-- One `place_order` call never creates or deletes product rows. -/
theorem place_order_preserves_idsOf (db : DB) (u : Nat) (cart : List CartItem)
    (t : Nat) : idsOf (place_order db u cart t).2.products = idsOf db.products := by
  rcases hc : cart with _ | ⟨it, rest⟩
  · rw [place_order_of_empty]
  · rcases hck : checkStock db.products (it :: rest) with _ | nm
    · rw [place_order_of_checkStock_none db u _ t (by simp) hck,
        insertItems_products, idsOf_decStocks]
    · rw [place_order_of_checkStock_some db u _ t nm (by simp) hck]

/-- Exact stock bookkeeping of one `place_order` call, whatever its outcome:
the stock change of every product is the opposite of the change in its total
ordered quantity. -/
theorem place_order_stock_delta (db : DB) (u : Nat) (cart : List CartItem)
    (t : Nat) (pid : Nat) :
    stockOf (place_order db u cart t).2.products pid =
      stockOf db.products pid -
        (soldQty (place_order db u cart t).2.orderItems pid -
          soldQty db.orderItems pid) := by
  rcases hc : cart with _ | ⟨it, rest⟩
  · rw [place_order_of_empty]; dsimp only; omega
  · rcases hck : checkStock db.products (it :: rest) with _ | nm
    · rw [place_order_of_checkStock_none db u _ t (by simp) hck]
      dsimp only
      rw [insertItems_products, insertItems_orderItems]
      have hok := (checkStock_eq_none_iff db.products (it :: rest)).mp hck
      have hpres : ∀ jt ∈ it :: rest, jt.id ∈ idsOf db.products :=
        fun jt hjt => mem_idsOf_of_not_lineFails db.products jt (hok jt hjt)
      dsimp only
      rw [stockOf_decStocks db.products (it :: rest) hpres pid,
        soldQty_append, soldQty_itemsOf]
      omega
    · rw [place_order_of_checkStock_some db u _ t nm (by simp) hck]
      dsimp only
      omega

/-- One `place_order` call keeps all stocks non-negative, provided product
ids are unique and the cart references each product at most once. -/
theorem place_order_stock_nonneg (db : DB) (u : Nat) (cart : List CartItem)
    (t : Nat) (hnd : (idsOf db.products).Nodup) (hndc : (cartIds cart).Nodup)
    (hnn : ∀ p ∈ db.products, 0 ≤ p.stock) :
    ∀ p ∈ (place_order db u cart t).2.products, 0 ≤ p.stock := by
  rcases hc : cart with _ | ⟨it, rest⟩
  · rw [place_order_of_empty]; exact hnn
  · rcases hck : checkStock db.products (it :: rest) with _ | nm
    · rw [place_order_of_checkStock_none db u _ t (by simp) hck,
        insertItems_products]
      exact decStocks_stock_nonneg db.products (it :: rest) hnd (hc ▸ hndc) hnn
        ((checkStock_eq_none_iff db.products (it :: rest)).mp hck)
    · rw [place_order_of_checkStock_some db u _ t nm (by simp) hck]
      exact hnn

/-- Invariant carried along a single-threaded sequence of `place_order`
calls: product rows are preserved, stocks stay non-negative, and every
product's stock moves by exactly the growth of its total ordered quantity. -/
theorem runOrders_stock_invariant (calls : List (Nat × List CartItem × Nat))
    (db : DB) (hnd : (idsOf db.products).Nodup)
    (hnn : ∀ p ∈ db.products, 0 ≤ p.stock)
    (hcarts : ∀ c ∈ calls, (cartIds c.2.1).Nodup) :
    idsOf (runOrders db calls).products = idsOf db.products ∧
    (∀ p ∈ (runOrders db calls).products, 0 ≤ p.stock) ∧
    ∀ pid, stockOf (runOrders db calls).products pid =
      stockOf db.products pid -
        (soldQty (runOrders db calls).orderItems pid -
          soldQty db.orderItems pid) := by
  induction calls generalizing db with
  | nil => exact ⟨rfl, hnn, fun pid => by rw [runOrders]; omega⟩
  | cons c rest ih =>
      obtain ⟨u, cart, t⟩ := c
      have hndc : (cartIds cart).Nodup := hcarts _ (List.mem_cons_self _ _)
      have hnd1 : (idsOf (place_order db u cart t).2.products).Nodup := by
        rw [place_order_preserves_idsOf]; exact hnd
      have hnn1 := place_order_stock_nonneg db u cart t hnd hndc hnn
      obtain ⟨hids, hnn2, hdelta⟩ := ih (place_order db u cart t).2 hnd1 hnn1
        (fun c hc => hcarts c (List.mem_cons_of_mem _ hc))
      refine ⟨?_, hnn2, fun pid => ?_⟩
      · rw [runOrders, hids, place_order_preserves_idsOf]
      · have h1 := hdelta pid
        have h2 := place_order_stock_delta db u cart t pid
        rw [runOrders]
        omega

/-! ### Claim C1 — the stock invariant -/

/-- C1, counterexample: the claim asserts stock never becomes negative even
"when a single cart contains the same product in more than one line", but a
single `place_order` call whose cart lists product A (stock 3) twice with
quantity 2 each passes the per-line check and drives A's stock to −1. -/
theorem c1_counterexample :
    (place_order dbA 7 cartDup 0).1 = .placed 1 ∧
      stockOf (runOrders dbA [(7, cartDup, 0)]).products 1 = -1 := by decide

/-- C1, amended: for every single-threaded sequence of `place_order` calls in
which every cart lists each product in at most one line, product stock never
becomes negative (at every prefix of the sequence), and after the sequence
each product's final stock equals its initial stock minus the growth of the
total quantity recorded in `order_items` for that product — that is, minus
the sum of quantities over all successful orders for it. -/
theorem c1_stock_invariant (db : DB) (calls : List (Nat × List CartItem × Nat))
    (hnd : (idsOf db.products).Nodup)
    (hnn : ∀ p ∈ db.products, 0 ≤ p.stock)
    (hcarts : ∀ c ∈ calls, (cartIds c.2.1).Nodup) :
    (∀ n, ∀ p ∈ (runOrders db (calls.take n)).products, 0 ≤ p.stock) ∧
    ∀ pid, stockOf (runOrders db calls).products pid =
      stockOf db.products pid -
        (soldQty (runOrders db calls).orderItems pid -
          soldQty db.orderItems pid) := by
  constructor
  · intro n
    exact (runOrders_stock_invariant (calls.take n) db hnd hnn
      (fun c hc => hcarts c (List.take_subset n calls hc))).2.1
  · exact (runOrders_stock_invariant calls db hnd hnn hcarts).2.2

/-- Witness for C1 at a concrete input: product A starts with stock 3; a
first order takes 2 units, a second order for 2 more units is refused; stock
stays non-negative throughout and the final bookkeeping balances. -/
theorem c1_stock_invariant_witness :
    ((idsOf dbA.products).Nodup ∧ (∀ p ∈ dbA.products, 0 ≤ p.stock) ∧
      ∀ c ∈ [(7, cartA, 0), (8, cartA, 1)], (cartIds c.2.1).Nodup) ∧
    ((∀ n, ∀ p ∈ (runOrders dbA ([(7, cartA, 0), (8, cartA, 1)].take n)).products,
        0 ≤ p.stock) ∧
      ∀ pid, stockOf (runOrders dbA [(7, cartA, 0), (8, cartA, 1)]).products pid =
        stockOf dbA.products pid -
          (soldQty (runOrders dbA [(7, cartA, 0), (8, cartA, 1)]).orderItems pid -
            soldQty dbA.orderItems pid)) :=
  ⟨⟨by decide, by decide, by decide⟩,
    c1_stock_invariant dbA [(7, cartA, 0), (8, cartA, 1)]
      (by decide) (by decide) (by decide)⟩

/-! ### Claim C2 — atomicity of checkout failure -/

/-- C2: if `place_order` is given a non-empty cart in which some line's
product does not exist or has current stock below that line's requested
quantity, the call fails with the insufficient-stock message naming (the
first) such line's product name, and the store is returned completely
unchanged — no order row, no order-item row, no stock decrement. -/
theorem c2_atomic_failure (db : DB) (u : Nat) (cart : List CartItem) (t : Nat)
    (hne : cart ≠ [])
    (hfail : ∃ it ∈ cart, lineFails db.products it) :
    ∃ it ∈ cart, lineFails db.products it ∧
      place_order db u cart t = (.insufficientStock it.name, db) := by
  rcases checkStock_eq_some_of_fails db.products cart hfail with ⟨it, hmem, hit, hck⟩
  exact ⟨it, hmem, hit, place_order_of_checkStock_some db u cart t it.name hne hck⟩

/-- Witness for C2 at the spec's §8 scenario: a cart asking 5 units of
product B while only 3 are in stock is refused and the store is unchanged. -/
theorem c2_atomic_failure_witness :
    (cartB ≠ [] ∧ ∃ it ∈ cartB, lineFails dbB.products it) ∧
    ∃ it ∈ cartB, lineFails dbB.products it ∧
      place_order dbB 7 cartB 0 = (.insufficientStock it.name, dbB) :=
  ⟨⟨by decide, by decide⟩, c2_atomic_failure dbB 7 cartB 0 (by decide) (by decide)⟩

/-! ### Claim C3 — successful checkout postcondition -/

/-- C3: for every non-empty cart all of whose lines reference an existing
product with stock at least the requested quantity, `place_order` succeeds
and persists exactly one new order whose total is the sum over cart lines of
snapshot unit price × quantity (`cartTotal` reads only the cart, never the
live product price); exactly one order item per cart line carrying the
snapshot price and quantity; and every product's stock drops by exactly the
quantity the cart ordered for it. -/
theorem c3_success_postcondition (db : DB) (u : Nat) (cart : List CartItem)
    (t : Nat) (hne : cart ≠ [])
    (hok : ∀ it ∈ cart, ¬ lineFails db.products it) :
    (place_order db u cart t).1 = .placed db.nextOrderId ∧
    (place_order db u cart t).2.orders =
      db.orders ++ [⟨db.nextOrderId, u, t, cartTotal cart⟩] ∧
    (place_order db u cart t).2.orderItems =
      db.orderItems ++ itemsOf db.nextOrderId cart ∧
    ∀ pid, stockOf (place_order db u cart t).2.products pid =
      stockOf db.products pid - cartQty cart pid := by
  have hck : checkStock db.products cart = none :=
    (checkStock_eq_none_iff db.products cart).mpr hok
  rw [place_order_of_checkStock_none db u cart t hne hck]
  dsimp only
  rw [insertItems_orders, insertItems_orderItems, insertItems_products]
  refine ⟨rfl, rfl, rfl, fun pid => ?_⟩
  exact stockOf_decStocks db.products cart
    (fun it hit => mem_idsOf_of_not_lineFails db.products it (hok it hit)) pid

/-- Witness for C3 at the spec's §8 scenario, sharpened to separate snapshot
from live price: the store's product A has live price 999 and stock 3, the
cart snapshot says price 150 and quantity 2; the order is placed with total
300 = 150 × 2 (the snapshot, not 999) and A's stock becomes 1. -/
theorem c3_success_postcondition_witness :
    (cartA ≠ [] ∧ ∀ it ∈ cartA, ¬ lineFails dbLive.products it) ∧
    ((place_order dbLive 9 cartA 5).1 = .placed dbLive.nextOrderId ∧
      (place_order dbLive 9 cartA 5).2.orders =
        dbLive.orders ++ [⟨dbLive.nextOrderId, 9, 5, cartTotal cartA⟩] ∧
      (place_order dbLive 9 cartA 5).2.orderItems =
        dbLive.orderItems ++ itemsOf dbLive.nextOrderId cartA ∧
      ∀ pid, stockOf (place_order dbLive 9 cartA 5).2.products pid =
        stockOf dbLive.products pid - cartQty cartA pid) ∧
    cartTotal cartA = 300 ∧
    stockOf (place_order dbLive 9 cartA 5).2.products 1 = 1 :=
  ⟨⟨by decide, by decide⟩,
    c3_success_postcondition dbLive 9 cartA 5 (by decide) (by decide),
    by norm_num [cartTotal, cartA],
    by decide⟩

/-! ### Claim C4 — order-item quantity lower bound -/

/-- C4, counterexample: `place_order` accepts a cart line requesting
quantity 0 of product A (the check `stock < 0` is false even at stock 0)
and persists an order item with quantity 0, so not every persisted order
item has quantity ≥ 1. -/
theorem c4_counterexample :
    (place_order dbOut 7 cartZero 0).1 = .placed 1 ∧
      ∃ oi ∈ (place_order dbOut 7 cartZero 0).2.orderItems,
        oi.quantity < 1 := by decide

/-- C4, amended: `place_order` records exactly the quantities of the cart it
accepts and performs no lower-bound validation of its own; consequently every
persisted order item has quantity ≥ 1 provided every line of every accepted
cart has quantity ≥ 1 (and the rows already in `order_items` do too). -/
theorem c4_quantity_invariant (db : DB) (u : Nat) (cart : List CartItem)
    (t : Nat) (hcart : ∀ it ∈ cart, 1 ≤ it.quantity)
    (hprev : ∀ oi ∈ db.orderItems, 1 ≤ oi.quantity) :
    ∀ oi ∈ (place_order db u cart t).2.orderItems, 1 ≤ oi.quantity := by
  rcases hc : cart with _ | ⟨it, rest⟩
  · rw [place_order_of_empty]; exact hprev
  · rcases hck : checkStock db.products (it :: rest) with _ | nm
    · rw [place_order_of_checkStock_none db u _ t (by simp) hck]
      dsimp only
      rw [insertItems_orderItems]
      intro oi hoi
      rcases List.mem_append.mp hoi with hold | hnew
      · exact hprev oi hold
      · rcases List.mem_map.mp hnew with ⟨jt, hjt, hje⟩
        rw [← hje]
        exact hcart jt (hc ▸ hjt)
    · rw [place_order_of_checkStock_some db u _ t nm (by simp) hck]
      exact hprev

/-- Witness for C4 (amended) at a concrete input: the §8 cart (quantity 2)
against a store with no prior order items yields order items all of
quantity ≥ 1. -/
theorem c4_quantity_invariant_witness :
    ((∀ it ∈ cartA, 1 ≤ it.quantity) ∧ ∀ oi ∈ dbA.orderItems, 1 ≤ oi.quantity) ∧
    ∀ oi ∈ (place_order dbA 7 cartA 0).2.orderItems, 1 ≤ oi.quantity :=
  ⟨⟨by decide, by decide⟩, c4_quantity_invariant dbA 7 cartA 0 (by decide) (by decide)⟩

/-! ### Claim C10 — no user existence check in checkout -/

/-- C10: `place_order` never verifies that its `user_id` refers to an
existing user: for every user id — in particular one matching no row of the
users table — and every non-empty cart passing the stock check, the call
succeeds and persists an order carrying that user id. The connection setup
(src/database.py:17-24) never enables SQLite's foreign-key enforcement, and
correspondingly this transition never reads `db.users`. -/
theorem c10_no_user_check (db : DB) (u : Nat) (cart : List CartItem) (t : Nat)
    (husers : ∀ usr ∈ db.users, usr.id ≠ u)
    (hne : cart ≠ [])
    (hok : ∀ it ∈ cart, ¬ lineFails db.products it) :
    (place_order db u cart t).1 = .placed db.nextOrderId ∧
    (place_order db u cart t).2.orders =
      db.orders ++ [⟨db.nextOrderId, u, t, cartTotal cart⟩] ∧
    (place_order db u cart t).2.users = db.users := by
  have hck : checkStock db.products cart = none :=
    (checkStock_eq_none_iff db.products cart).mpr hok
  rw [place_order_of_checkStock_none db u cart t hne hck]
  dsimp only
  rw [insertItems_orders, insertItems_users]
  exact ⟨rfl, rfl, rfl⟩

/-! ### Lemmas about reviews and wishlist -/

theorem any_reviewPair_iff (rs : List Review) (uid pid : Nat) :
    rs.any (reviewPair uid pid) = true ↔ 0 < reviewCount rs uid pid := by
  rw [List.any_eq_true, reviewCount, List.length_pos]
  constructor
  · rintro ⟨r, hr, hp⟩ hnil
    exact (List.filter_eq_nil_iff.mp hnil) r hr hp
  · intro hne
    rcases List.exists_mem_of_ne_nil _ hne with ⟨r, hr⟩
    exact ⟨r, List.mem_of_mem_filter hr, List.of_mem_filter hr⟩

theorem reviewCount_append (xs ys : List Review) (uid pid : Nat) :
    reviewCount (xs ++ ys) uid pid = reviewCount xs uid pid + reviewCount ys uid pid := by
  rw [reviewCount, List.filter_append, List.length_append]; rfl

theorem reviewPair_overwriteReview (uid pid : Nat) (rating : Int)
    (comment : String) (now : Nat) (r : Review) :
    reviewPair uid pid (overwriteReview uid pid rating comment now r) =
      reviewPair uid pid r := by
  unfold overwriteReview
  by_cases h : reviewPair uid pid r = true
  · rw [if_pos h, h]
    unfold reviewPair at h ⊢
    simp only [Bool.and_eq_true, beq_iff_eq] at h
    simp [h.1, h.2]
  · rw [if_neg h]

theorem reviewCount_map_overwrite (rs : List Review) (uid pid : Nat)
    (rating : Int) (comment : String) (now : Nat) :
    reviewCount (rs.map (overwriteReview uid pid rating comment now)) uid pid =
      reviewCount rs uid pid := by
  induction rs with
  | nil => rfl
  | cons r rest ih =>
      simp only [List.map_cons, reviewCount, List.filter_cons] at ih ⊢
      rw [reviewPair_overwriteReview]
      by_cases h : reviewPair uid pid r = true
      · simp [h, ih]
      · simp [h, ih]

theorem mem_map_overwrite (rs : List Review) (uid pid : Nat) (rating : Int)
    (comment : String) (now : Nat) (r : Review)
    (hr : r ∈ rs.map (overwriteReview uid pid rating comment now))
    (hp : reviewPair uid pid r = true) :
    r.rating = rating ∧ r.comment = comment ∧ r.created_at = now := by
  rcases List.mem_map.mp hr with ⟨s, _, hs⟩
  by_cases hps : reviewPair uid pid s = true
  · rw [← hs]
    unfold overwriteReview
    rw [if_pos hps]
    exact ⟨rfl, rfl, rfl⟩
  · rw [← hs, overwriteReview, if_neg hps] at hp
    exact absurd hp hps

/-- A valid rating makes `add_review` report success and leave exactly one
row for the pair, provided the pair-uniqueness invariant held before. -/
theorem add_review_valid (rs : List Review) (uid pid : Nat) (rating : Int)
    (comment : String) (now : Nat) (hlo : 1 ≤ rating) (hhi : rating ≤ 5)
    (hcount : reviewCount rs uid pid ≤ 1) :
    (add_review rs uid pid rating comment now).1 = true ∧
    reviewCount (add_review rs uid pid rating comment now).2 uid pid = 1 := by
  have hv : ¬ (rating < 1 ∨ 5 < rating) := by omega
  by_cases h : rs.any (reviewPair uid pid) = true
  · rw [add_review, if_neg hv, if_pos h]
    have hpos := (any_reviewPair_iff rs uid pid).mp h
    refine ⟨rfl, ?_⟩
    rw [reviewCount_map_overwrite]
    omega
  · rw [add_review, if_neg hv, if_neg h]
    have hz : reviewCount rs uid pid = 0 := by
      rcases Nat.eq_zero_or_pos (reviewCount rs uid pid) with h0 | hpos
      · exact h0
      · exact absurd ((any_reviewPair_iff rs uid pid).mpr hpos) h
    refine ⟨rfl, ?_⟩
    rw [reviewCount_append, hz, reviewCount]
    simp [reviewPair]

/-- On a store already holding the pair, a valid `add_review` takes the
UPDATE branch: it overwrites in place and inserts nothing. -/
theorem add_review_overwrites (rs : List Review) (uid pid : Nat) (rating : Int)
    (comment : String) (now : Nat) (hlo : 1 ≤ rating) (hhi : rating ≤ 5)
    (hpos : 0 < reviewCount rs uid pid) :
    (add_review rs uid pid rating comment now).2 =
      rs.map (overwriteReview uid pid rating comment now) := by
  have hv : ¬ (rating < 1 ∨ 5 < rating) := by omega
  rw [add_review, if_neg hv, if_pos ((any_reviewPair_iff rs uid pid).mpr hpos)]

/-! ### Claim C5 — review upsert -/

/-- C5: for every user, product, in-range ratings and timestamps, adding a
review and then a second review by the same user for the same product leaves
exactly one review row for the pair, carrying the second call's rating,
comment and timestamp: the second call overwrites in place instead of
creating a duplicate (assuming the pair-uniqueness invariant of the UNIQUE
constraint held before the first call). -/
theorem c5_review_upsert (rs : List Review) (uid pid : Nat) (r1 r2 : Int)
    (m1 m2 : String) (t1 t2 : Nat)
    (h1lo : 1 ≤ r1) (h1hi : r1 ≤ 5) (h2lo : 1 ≤ r2) (h2hi : r2 ≤ 5)
    (hcount : reviewCount rs uid pid ≤ 1) :
    (add_review rs uid pid r1 m1 t1).1 = true ∧
    (add_review (add_review rs uid pid r1 m1 t1).2 uid pid r2 m2 t2).1 = true ∧
    reviewCount
      (add_review (add_review rs uid pid r1 m1 t1).2 uid pid r2 m2 t2).2
      uid pid = 1 ∧
    ∀ r ∈ (add_review (add_review rs uid pid r1 m1 t1).2 uid pid r2 m2 t2).2,
      reviewPair uid pid r = true →
        r.rating = r2 ∧ r.comment = m2 ∧ r.created_at = t2 := by
  obtain ⟨hs1, hc1⟩ := add_review_valid rs uid pid r1 m1 t1 h1lo h1hi hcount
  obtain ⟨hs2, hc2⟩ := add_review_valid (add_review rs uid pid r1 m1 t1).2
    uid pid r2 m2 t2 h2lo h2hi (by omega)
  have hover := add_review_overwrites (add_review rs uid pid r1 m1 t1).2
    uid pid r2 m2 t2 h2lo h2hi (by omega)
  refine ⟨hs1, hs2, hc2, fun r hr hp => ?_⟩
  rw [hover] at hr
  exact mem_map_overwrite _ uid pid r2 m2 t2 r hr hp

/-- Witness for C5 at the spec's concrete scenario: rating 3 "ok" then
rating 5 "better" on an empty review table leaves one row for the pair with
rating 5, comment "better" and the later timestamp. -/
theorem c5_review_upsert_witness :
    ((1 : Int) ≤ 3 ∧ (3 : Int) ≤ 5 ∧ (1 : Int) ≤ 5 ∧ (5 : Int) ≤ 5 ∧
      reviewCount [] 1 1 ≤ 1) ∧
    ((add_review [] 1 1 3 "ok" 10).1 = true ∧
      (add_review (add_review [] 1 1 3 "ok" 10).2 1 1 5 "better" 20).1 = true ∧
      reviewCount
        (add_review (add_review [] 1 1 3 "ok" 10).2 1 1 5 "better" 20).2 1 1 = 1 ∧
      ∀ r ∈ (add_review (add_review [] 1 1 3 "ok" 10).2 1 1 5 "better" 20).2,
        reviewPair 1 1 r = true →
          r.rating = 5 ∧ r.comment = "better" ∧ r.created_at = 20) :=
  ⟨⟨by decide, by decide, by decide, by decide, by decide⟩,
    c5_review_upsert [] 1 1 3 5 "ok" "better" 10 20
      (by decide) (by decide) (by decide) (by decide) (by decide)⟩

/-! ### Wishlist lemmas and claim C6 -/

theorem any_wishPair_iff (ws : List WishlistEntry) (uid pid : Nat) :
    ws.any (wishPair uid pid) = true ↔ 0 < wishCount ws uid pid := by
  rw [List.any_eq_true, wishCount, List.length_pos]
  constructor
  · rintro ⟨w, hw, hp⟩ hnil
    exact (List.filter_eq_nil_iff.mp hnil) w hw hp
  · intro hne
    rcases List.exists_mem_of_ne_nil _ hne with ⟨w, hw⟩
    exact ⟨w, List.mem_of_mem_filter hw, List.of_mem_filter hw⟩

theorem wishCount_append (xs ys : List WishlistEntry) (uid pid : Nat) :
    wishCount (xs ++ ys) uid pid = wishCount xs uid pid + wishCount ys uid pid := by
  rw [wishCount, List.filter_append, List.length_append]; rfl

/-- C6: for every user and product, `add_wishlist` reports success on every
call; starting from a store satisfying the pair-uniqueness invariant, the
first call leaves exactly one wishlist row for the pair, and a second call
(at any later time) is a complete no-op on the state — no duplicate row, no
error — so any number of further calls leave exactly one entry. -/
theorem c6_wishlist_idempotent (ws : List WishlistEntry) (uid pid : Nat)
    (t1 t2 : Nat) (hcount : wishCount ws uid pid ≤ 1) :
    (add_wishlist ws uid pid t1).1 = true ∧
    wishCount (add_wishlist ws uid pid t1).2 uid pid = 1 ∧
    add_wishlist (add_wishlist ws uid pid t1).2 uid pid t2 =
      (true, (add_wishlist ws uid pid t1).2) := by
  by_cases h : ws.any (wishPair uid pid) = true
  · have hpos := (any_wishPair_iff ws uid pid).mp h
    rw [add_wishlist, if_pos h]
    dsimp only
    exact ⟨rfl, by omega, by rw [add_wishlist, if_pos h]⟩
  · have hz : wishCount ws uid pid = 0 := by
      rcases Nat.eq_zero_or_pos (wishCount ws uid pid) with h0 | hpos
      · exact h0
      · exact absurd ((any_wishPair_iff ws uid pid).mpr hpos) h
    rw [add_wishlist, if_neg h]
    dsimp only
    have hone : wishCount (ws ++ [⟨uid, pid, t1⟩]) uid pid = 1 := by
      rw [wishCount_append, hz, wishCount]
      simp [wishPair]
    refine ⟨rfl, hone, ?_⟩
    rw [add_wishlist, if_pos ((any_wishPair_iff _ uid pid).mpr (by omega))]

/-- Witness for C6 at a concrete input: adding (user 1, product 2) twice to
an empty wishlist succeeds both times and stores exactly one row. -/
theorem c6_wishlist_idempotent_witness :
    (wishCount [] 1 2 ≤ 1) ∧
    ((add_wishlist [] 1 2 10).1 = true ∧
      wishCount (add_wishlist [] 1 2 10).2 1 2 = 1 ∧
      add_wishlist (add_wishlist [] 1 2 10).2 1 2 20 =
        (true, (add_wishlist [] 1 2 10).2)) :=
  ⟨by decide, c6_wishlist_idempotent [] 1 2 10 20 (by decide)⟩

/-- Witness for C10 at a concrete input: a store with an *empty* users table
still accepts an order for user id 42. -/
theorem c10_no_user_check_witness :
    ((∀ usr ∈ dbA.users, usr.id ≠ 42) ∧ cartA ≠ [] ∧
      ∀ it ∈ cartA, ¬ lineFails dbA.products it) ∧
    ((place_order dbA 42 cartA 0).1 = .placed dbA.nextOrderId ∧
      (place_order dbA 42 cartA 0).2.orders =
        dbA.orders ++ [⟨dbA.nextOrderId, 42, 0, cartTotal cartA⟩] ∧
      (place_order dbA 42 cartA 0).2.users = dbA.users) :=
  ⟨⟨by decide, by decide, by decide⟩,
    c10_no_user_check dbA 42 cartA 0 (by decide) (by decide) (by decide)⟩

/-! ### Lemmas about the credential store -/

theorem string_append_left_cancel (s a b : String) (h : s ++ a = s ++ b) :
    a = b := by
  apply String.ext
  have hd := congrArg String.data h
  rw [String.data_append, String.data_append] at hd
  exact List.append_cancel_left hd

theorem hashConcrete_injective : Function.Injective hashConcrete :=
  fun a b h => string_append_left_cancel "#" a b h

/-- What a successful `register_user` tells us: every guard passed and the
new state appends exactly one user row with the stripped username, the
salted digest and the given salt. -/
theorem register_user_success (hash : String → String) (db : UserDB)
    (username password salt : String) (now : Nat)
    (h : (register_user hash db username password salt now).1 = true) :
    3 ≤ username.length ∧ 6 ≤ password.length ∧
    db.users.any (fun u => u.username == strip username) = false ∧
    (register_user hash db username password salt now).2.2 =
      { users := db.users ++
          [⟨db.nextUserId, strip username, hash (salt ++ password), salt, false, now⟩],
        nextUserId := db.nextUserId + 1 } := by
  unfold register_user at h ⊢
  split_ifs at h ⊢ with h1 h2 h3 h4
  all_goals try simp at h
  exact ⟨by omega, by omega, by simpa using h4, rfl⟩

/-- `authenticate` on a store whose last row is the only one matching the
stripped username reduces to the digest comparison against that row. -/
theorem authenticate_append (hash : String → String) (pre : List User)
    (u : User) (nid : Nat) (username password : String)
    (hpre : pre.find? (fun v => v.username == strip username) = none)
    (hu : u.username = strip username) :
    authenticate hash ⟨pre ++ [u], nid⟩ username password =
      if hash (u.password_salt ++ password) = u.password_hash then (true, some u)
      else (false, none) := by
  unfold authenticate
  dsimp only
  rw [List.find?_append, hpre]
  rw [List.find?_cons_of_pos _ (by rw [hu]; exact beq_self_eq_true _)]
  rfl

/-- `change_password` on a store whose last row is the only one with the
target id, when the old password's digest matches: it succeeds and rewrites
exactly that row with the fresh salt and the new digest. -/
theorem change_password_append (hash : String → String) (pre : List User)
    (u : User) (nid uid : Nat) (old newPassword newSalt : String)
    (hpre : ∀ v ∈ pre, v.id ≠ uid) (hu : u.id = uid)
    (hlen : 6 ≤ newPassword.length)
    (hold : hash (u.password_salt ++ old) = u.password_hash) :
    change_password hash ⟨pre ++ [u], nid⟩ uid old newPassword newSalt =
      (true, "Password updated.",
        ⟨pre ++ [⟨u.id, u.username, hash (newSalt ++ newPassword), newSalt,
          u.is_admin, u.created_at⟩], nid⟩) := by
  unfold change_password
  rw [if_neg (by omega)]
  have hprenone : pre.find? (fun v => v.id == uid) = none :=
    List.find?_eq_none.mpr (fun v hv => by simp [hpre v hv])
  rw [List.find?_append, hprenone]
  rw [List.find?_cons_of_pos _ (by rw [hu]; exact beq_self_eq_true _)]
  simp only [Option.none_or]
  rw [if_pos hold]
  have hmap : pre.map (fun v =>
      if v.id = uid then
        { v with password_hash := hash (newSalt ++ newPassword),
                 password_salt := newSalt }
      else v) = pre := by
    rw [List.map_congr_left (fun v hv => if_neg (hpre v hv))]
    exact List.map_id pre
  rw [List.map_append, hmap]
  simp [hu]

/-! ### Claim C8 — password round-trip -/

/-- C8, counterexample: the claim asserts that after every successful
`change_password(userId, old, new)` the old password no longer
authenticates; but `change_password` accepts new = old (here both
"secret1"), and afterwards the "old" password still authenticates. -/
theorem c8_counterexample :
    (change_password hashConcrete udbAlice 1 "secret1" "secret1" "s2").1 = true ∧
    (authenticate hashConcrete
      (change_password hashConcrete udbAlice 1 "secret1" "secret1" "s2").2.2
      "alice" "secret1").1 = true := by decide

/-- C8, amended: for every username/password accepted by `register_user`
(with any salt, against a store whose rows do not reuse the fresh user id,
and a collision-free digest), `authenticate` with the same username and
password succeeds and returns the stored user record, while any other
password is rejected; and after a successful `change_password` to a new
password *different from the old one*, the old password no longer
authenticates and the new one does. (The restriction new ≠ old is forced:
the code accepts new = old, after which the old password still works.) -/
theorem c8_password_roundtrip (hash : String → String) (db : UserDB)
    (username password salt : String) (now : Nat)
    (hinj : Function.Injective hash)
    (hfresh : ∀ u ∈ db.users, u.id ≠ db.nextUserId)
    (hsucc : (register_user hash db username password salt now).1 = true) :
    authenticate hash (register_user hash db username password salt now).2.2
        username password =
      (true, some ⟨db.nextUserId, strip username, hash (salt ++ password),
        salt, false, now⟩) ∧
    (∀ wrong, wrong ≠ password →
      (authenticate hash (register_user hash db username password salt now).2.2
          username wrong).1 = false) ∧
    ∀ newPassword newSalt : String, 6 ≤ newPassword.length →
      newPassword ≠ password →
      (change_password hash (register_user hash db username password salt now).2.2
          db.nextUserId password newPassword newSalt).1 = true ∧
      (authenticate hash
        (change_password hash (register_user hash db username password salt now).2.2
          db.nextUserId password newPassword newSalt).2.2 username password).1 = false ∧
      (authenticate hash
        (change_password hash (register_user hash db username password salt now).2.2
          db.nextUserId password newPassword newSalt).2.2 username newPassword).1 = true := by
  obtain ⟨hl3, hl6, hany, hstate⟩ :=
    register_user_success hash db username password salt now hsucc
  rw [hstate]
  have hnone : db.users.find? (fun v => v.username == strip username) = none :=
    List.find?_eq_none.mpr (List.any_eq_false.mp hany)
  have hauth := authenticate_append hash db.users
    ⟨db.nextUserId, strip username, hash (salt ++ password), salt, false, now⟩
    (db.nextUserId + 1) username
  refine ⟨?_, ?_, ?_⟩
  · rw [hauth password hnone rfl]
    exact if_pos rfl
  · intro wrong hwrong
    rw [hauth wrong hnone rfl]
    rw [if_neg (fun he =>
      hwrong (string_append_left_cancel salt wrong password (hinj he)))]
  · intro newPassword newSalt hlen hne
    rw [change_password_append hash db.users
      ⟨db.nextUserId, strip username, hash (salt ++ password), salt, false, now⟩
      (db.nextUserId + 1) db.nextUserId password newPassword newSalt
      hfresh rfl hlen rfl]
    dsimp only
    have hauth2 := authenticate_append hash db.users
      ⟨db.nextUserId, strip username, hash (newSalt ++ newPassword), newSalt,
        false, now⟩
      (db.nextUserId + 1) username
    refine ⟨rfl, ?_, ?_⟩
    · rw [hauth2 password hnone rfl]
      rw [if_neg (fun he =>
        hne (string_append_left_cancel newSalt password newPassword (hinj he)).symm)]
    · rw [hauth2 newPassword hnone rfl]
      rw [if_pos rfl]

/-- Witness for C8 (amended) at a concrete input: alice registers with
secret1 against an empty store under the concrete injective digest; the
round-trip properties hold as delivered by the theorem. -/
theorem c8_password_roundtrip_witness :
    (Function.Injective hashConcrete ∧
      (∀ u ∈ udbEmpty.users, u.id ≠ udbEmpty.nextUserId) ∧
      (register_user hashConcrete udbEmpty "alice" "secret1" "s1" 0).1 = true) ∧
    (authenticate hashConcrete
        (register_user hashConcrete udbEmpty "alice" "secret1" "s1" 0).2.2
        "alice" "secret1" =
      (true, some ⟨udbEmpty.nextUserId, strip "alice",
        hashConcrete ("s1" ++ "secret1"), "s1", false, 0⟩) ∧
    (∀ wrong, wrong ≠ "secret1" →
      (authenticate hashConcrete
          (register_user hashConcrete udbEmpty "alice" "secret1" "s1" 0).2.2
          "alice" wrong).1 = false) ∧
    ∀ newPassword newSalt : String, 6 ≤ newPassword.length →
      newPassword ≠ "secret1" →
      (change_password hashConcrete
          (register_user hashConcrete udbEmpty "alice" "secret1" "s1" 0).2.2
          udbEmpty.nextUserId "secret1" newPassword newSalt).1 = true ∧
      (authenticate hashConcrete
        (change_password hashConcrete
          (register_user hashConcrete udbEmpty "alice" "secret1" "s1" 0).2.2
          udbEmpty.nextUserId "secret1" newPassword newSalt).2.2
        "alice" "secret1").1 = false ∧
      (authenticate hashConcrete
        (change_password hashConcrete
          (register_user hashConcrete udbEmpty "alice" "secret1" "s1" 0).2.2
          udbEmpty.nextUserId "secret1" newPassword newSalt).2.2
        "alice" newPassword).1 = true) :=
  ⟨⟨hashConcrete_injective, by decide, by decide⟩,
    c8_password_roundtrip hashConcrete udbEmpty "alice" "secret1" "s1" 0
      hashConcrete_injective (by decide) (by decide)⟩

/-! ### Claim C9 — username length -/

/-- C9, counterexample: `register_user` validates the length of the *raw*
username but stores the *stripped* one; the username "  a" (three
characters, two of them spaces) is accepted, and the stored row's username
"a" has fewer than 3 characters. -/
theorem c9_counterexample :
    (register_user hashConcrete udbEmpty "  a" "secret1" "s1" 0).1 = true ∧
    ∃ u ∈ (register_user hashConcrete udbEmpty "  a" "secret1" "s1" 0).2.2.users,
      u.username.length < 3 := by decide

/-- C9, amended: register rejects any raw username shorter than 3
characters (success implies the raw input had length ≥ 3), and every row it
stores is either a pre-existing row or carries the whitespace-stripped
input as username — which can be shorter than 3 characters when the raw
input has surrounding whitespace. -/
theorem c9_username_length (hash : String → String) (db : UserDB)
    (username password salt : String) (now : Nat)
    (hsucc : (register_user hash db username password salt now).1 = true) :
    3 ≤ username.length ∧
    ∀ u ∈ (register_user hash db username password salt now).2.2.users,
      u ∈ db.users ∨ u.username = strip username := by
  obtain ⟨hl3, _, _, hstate⟩ :=
    register_user_success hash db username password salt now hsucc
  refine ⟨hl3, ?_⟩
  rw [hstate]
  intro u hu
  rcases List.mem_append.mp hu with h | h
  · exact Or.inl h
  · right
    rw [List.mem_singleton.mp h]

/-- Witness for C9 (amended) at a concrete input: registering "bob" (no
surrounding whitespace) succeeds and the stored username is the stripped
input. -/
theorem c9_username_length_witness :
    ((register_user hashConcrete udbEmpty "bob" "secret1" "s1" 0).1 = true) ∧
    (3 ≤ "bob".length ∧
      ∀ u ∈ (register_user hashConcrete udbEmpty "bob" "secret1" "s1" 0).2.2.users,
        u ∈ udbEmpty.users ∨ u.username = strip "bob") :=
  ⟨by decide,
    c9_username_length hashConcrete udbEmpty "bob" "secret1" "s1" 0 (by decide)⟩

/-! ### Lemmas about the catalog listing -/

/-- Every ORDER BY variant permutes the rows, so it preserves their count. -/
theorem length_sortProducts (rs : List Review) (sb : String) (ps : List Product) :
    (sortProducts rs sb ps).length = ps.length := by
  unfold sortProducts
  split_ifs <;> exact (List.mergeSort_perm ps _).length_eq

/-- The length of the last page: with N matching rows and page size k,
`LIMIT k OFFSET (ceil(N/k)-1)*k` keeps N mod k rows, or k when k divides N. -/
theorem lastPage_length (N k : Nat) (hk : 1 ≤ k) (hN : 0 < N) :
    min k (N - ((N + k - 1) / k - 1) * k) = if N % k = 0 then k else N % k := by
  have hkpos : 0 < k := hk
  have hdm := Nat.div_add_mod N k
  have hrlt : N % k < k := Nat.mod_lt _ hkpos
  by_cases h0 : N % k = 0
  · have hq1 : 1 ≤ N / k := by
      rcases Nat.eq_zero_or_pos (N / k) with hz | hp
      · rw [hz, Nat.mul_zero] at hdm; omega
      · exact hp
    have hceil : (N + k - 1) / k = N / k := by
      have he : N + k - 1 = (k - 1) + k * (N / k) := by omega
      rw [he, Nat.add_mul_div_left _ _ hkpos, Nat.div_eq_of_lt (by omega)]
      omega
    have hsub : (N / k - 1) * k = k * (N / k) - k := by
      rw [Nat.sub_mul, Nat.one_mul, Nat.mul_comm]
    have hmN : k * (N / k) = N := by omega
    have hNk : k ≤ N := hmN ▸ Nat.le_mul_of_pos_right k hq1
    rw [hceil, if_pos h0, hsub, hmN, Nat.min_def]
    split_ifs <;> omega
  · have hceil : (N + k - 1) / k = N / k + 1 := by
      have he : N + k - 1 = (N % k - 1) + k * (N / k + 1) := by
        have hmul : k * (N / k + 1) = k * (N / k) + k := by
          rw [Nat.mul_add, Nat.mul_one]
        omega
      rw [he, Nat.add_mul_div_left _ _ hkpos, Nat.div_eq_of_lt (by omega)]
      omega
    have hsub : (N / k + 1 - 1) * k = k * (N / k) := by
      rw [Nat.add_sub_cancel, Nat.mul_comm]
    have hmN : k * (N / k) = N - N % k := by omega
    rw [hceil, if_neg h0, hsub, hmN, Nat.min_def]
    split_ifs <;> omega

/-! ### Claim C7 — pagination -/

/-- C7: for every filter and catalog, `total` is the number of matching rows
independently of the requested page (the COUNT runs before LIMIT/OFFSET);
the returned page is the sorted match set from offset (page−1)×pageSize,
truncated to pageSize rows; and on the last page (page = ⌈N/k⌉, for N
matching rows, k = pageSize ≥ 1, N ≥ 1) exactly N mod k rows come back — k
rows when k divides N. -/
theorem c7_pagination (ps : List Product) (rs : List Review) (f : ProductFilter)
    (hk : 1 ≤ f.page_size)
    (hN : 0 < (ps.filter (matchesFilter f)).length)
    (hpage : f.page =
      ((ps.filter (matchesFilter f)).length + f.page_size - 1) / f.page_size) :
    (∀ p₁ p₂ : Nat, (list_products ps rs { f with page := p₁ }).2 =
      (list_products ps rs { f with page := p₂ }).2) ∧
    (list_products ps rs f).2 = (ps.filter (matchesFilter f)).length ∧
    (list_products ps rs f).1 =
      ((sortProducts rs f.sort_by (ps.filter (matchesFilter f))).drop
        ((f.page - 1) * f.page_size)).take f.page_size ∧
    (list_products ps rs f).1.length =
      (if (ps.filter (matchesFilter f)).length % f.page_size = 0 then f.page_size
       else (ps.filter (matchesFilter f)).length % f.page_size) := by
  refine ⟨fun p₁ p₂ => rfl, rfl, rfl, ?_⟩
  show (((sortProducts rs f.sort_by (ps.filter (matchesFilter f))).drop
      ((f.page - 1) * f.page_size)).take f.page_size).length = _
  rw [List.length_take, List.length_drop, length_sortProducts, hpage]
  exact lastPage_length _ _ hk hN

/-- Witness for C7 at a concrete input: a catalog of 7 products, page size
3, page 3 = ⌈7/3⌉: the total is 7 on every page and the last page holds
7 mod 3 = 1 row. -/
theorem c7_pagination_witness :
    (1 ≤ filter7.page_size ∧
      0 < (catalog7.filter (matchesFilter filter7)).length ∧
      filter7.page = ((catalog7.filter (matchesFilter filter7)).length +
        filter7.page_size - 1) / filter7.page_size) ∧
    ((∀ p₁ p₂ : Nat, (list_products catalog7 [] { filter7 with page := p₁ }).2 =
      (list_products catalog7 [] { filter7 with page := p₂ }).2) ∧
    (list_products catalog7 [] filter7).2 =
      (catalog7.filter (matchesFilter filter7)).length ∧
    (list_products catalog7 [] filter7).1 =
      ((sortProducts [] filter7.sort_by (catalog7.filter (matchesFilter filter7))).drop
        ((filter7.page - 1) * filter7.page_size)).take filter7.page_size ∧
    (list_products catalog7 [] filter7).1.length =
      (if (catalog7.filter (matchesFilter filter7)).length % filter7.page_size = 0
       then filter7.page_size
       else (catalog7.filter (matchesFilter filter7)).length % filter7.page_size)) :=
  ⟨⟨by decide, by decide, by decide⟩,
    c7_pagination catalog7 [] filter7 (by decide) (by decide) (by decide)⟩

end Store
